import Mathlib

/-!
Verification development for the LLM call orchestration subsystem of the
2id8 backend (`app/utils/llm_handler.py`): the priority queue, rate limiter,
call records, dispatcher retry logic and batch layer, shallowly embedded in
Lean 4, together with proofs and refutations of the specified properties.

Conventions of the embedding:
* Python `datetime` / `time.time()` instants are modelled as integers
  (seconds for the rate limiter, milliseconds for call ids), since only
  comparisons and differences of instants matter to the code.
* Python dicts keyed by strings are modelled as association lists with
  unique keys; `d[k] = v` replaces the entry when the key is present and
  appends otherwise, `del d[k]` removes the entry for the key.
* Python object aliasing (the same `LLMCall` object referenced from the
  queue lists, the active dict and the history dict) is modelled by an
  append-only object store `history : List LLMCall`, where a list index
  plays the role of an object reference ("token"); the queues, the active
  dict and the id index hold tokens.
* `float` fields (temperature, cost) are modelled as rationals; the claims
  under study never compute with them.
-/

/-- Priority levels for LLM calls (`CallPriority` in the source). -/
inductive CallPriority
  | low
  | normal
  | high
  | critical
deriving DecidableEq, Repr

/-- Scheduling rank of a tier: lower value means scanned earlier by
`dequeue` (CRITICAL first). -/
def CallPriority.rank : CallPriority → Nat
  | .critical => 0
  | .high => 1
  | .normal => 2
  | .low => 3

/-- Status of LLM calls (`CallStatus` in the source). -/
inductive CallStatus
  | queued
  | processing
  | completed
  | failed
  | timeout
  | cancelled
deriving DecidableEq, Repr

/-- The call record (`LLMCall` dataclass in the source). -/
structure LLMCall where
  id : String
  prompt : String
  model : String
  temperature : Rat
  maxTokens : Nat
  priority : CallPriority
  userId : Int
  createdAt : Int
  timeoutSeconds : Nat := 300
  retryCount : Nat := 0
  maxRetries : Nat := 3
  status : CallStatus := .queued
  result : Option String := none
  error : Option String := none
  responseTimeMs : Option Nat := none
  tokensUsed : Option Nat := none
  cost : Option Rat := none
  metadata : List (String × String) := []
deriving DecidableEq, Repr

/-- Relevant fields of the application settings (`app/core/config.py`):
`openai_model = "gpt-4"`, `openai_temperature = 0.7`, `max_tokens = 2000`. -/
structure Settings where
  openaiModel : String := "gpt-4"
  openaiTemperature : Rat := 7 / 10
  maxTokens : Nat := 2000

/-- The global settings instance. -/
def settings : Settings := {}

/-- Token estimation (`LLMCallHandler._estimate_tokens`):
`int((len(prompt) + len(response)) / 4)`. -/
def estimateTokens (prompt response : String) : Nat :=
  (prompt.length + response.length) / 4

/-- Cost estimation (`LLMCallHandler._estimate_cost`): `tokens * 0.00003`. -/
def estimateCost (tokens : Nat) : Rat :=
  tokens * (3 / 100000 : Rat)

/-- Substring test on character lists, used to model the Python operator
`pat in s` on strings. -/
def subOccurs (pat : List Char) : List Char → Bool
  | [] => pat.isEmpty
  | c :: rest => pat.isPrefixOf (c :: rest) || subOccurs pat rest

/-- Python `pat in s` for strings. -/
def strContains (s pat : String) : Bool :=
  subOccurs pat.toList s.toList

/-- The provider stub (`LLMCallHandler._make_api_call`): sleeps briefly and
always returns a string chosen by keywords of the lower-cased prompt. It
never raises; in particular it never raises `asyncio.TimeoutError`, and the
caller does not wrap it in `asyncio.wait_for`. -/
def makeApiCall (call : LLMCall) : String :=
  if strContains call.prompt.toLower "generate" then
    "Generated response with multiple ideas and detailed analysis."
  else if strContains call.prompt.toLower "evaluate" then
    "Evaluation response with scores, strengths, and recommendations."
  else if strContains call.prompt.toLower "iterate" then
    "Iteration response with improved version and changes made."
  else
    "Response to prompt: " ++ call.prompt.take 100 ++ "..."

/-- Call id generation (`LLMCallHandler.submit_call`, line 205):
`f"call_{int(time.time() * 1000)}_{user_id}"`. -/
def callIdOf (nowMs : Int) (userId : Int) : String :=
  "call_" ++ toString nowMs ++ "_" ++ toString userId

/-! ## RateLimiter -/

/-- Rate limiter state (`RateLimiter`): two rolling logs of call
timestamps (seconds). -/
structure RateLimiter where
  callsPerMinute : Nat := 60
  callsPerHour : Nat := 1000
  minuteCalls : List Int := []
  hourCalls : List Int := []
deriving DecidableEq, Repr

/-- `RateLimiter.can_make_call`: prune both logs to entries strictly newer
than `now − 60` / `now − 3600` seconds, then report whether both pruned
logs are below capacity. Returns the pruned state and the answer. -/
def RateLimiter.canMakeCall (rl : RateLimiter) (now : Int) : RateLimiter × Bool :=
  let minuteAgo := now - 60
  let hourAgo := now - 3600
  let m := rl.minuteCalls.filter (fun t => minuteAgo < t)
  let h := rl.hourCalls.filter (fun t => hourAgo < t)
  ({ rl with minuteCalls := m, hourCalls := h },
    decide (m.length < rl.callsPerMinute) && decide (h.length < rl.callsPerHour))

/-- `RateLimiter.record_call`: append the current timestamp to both logs. -/
def RateLimiter.recordCall (rl : RateLimiter) (now : Int) : RateLimiter :=
  { rl with minuteCalls := rl.minuteCalls ++ [now], hourCalls := rl.hourCalls ++ [now] }

/-- Record one call per timestamp in the given order. -/
def RateLimiter.recordCalls (rl : RateLimiter) (ts : List Int) : RateLimiter :=
  ts.foldl RateLimiter.recordCall rl

/-! ## Association-list model of Python string-keyed dicts -/

/-- Dict lookup: `d.get(k)` / `d[k]`. -/
def dictGet {α : Type} (d : List (String × α)) (k : String) : Option α :=
  (d.find? (fun e => e.1 == k)).map (·.2)

/-- Dict assignment `d[k] = v`: replace the entry when the key is present,
append otherwise. -/
def dictInsert {α : Type} (d : List (String × α)) (k : String) (v : α) :
    List (String × α) :=
  if d.any (fun e => e.1 == k) then
    d.map (fun e => if e.1 == k then (k, v) else e)
  else
    d ++ [(k, v)]

/-- Dict deletion `if k in d: del d[k]`: remove the entry for the key (a
dict holds at most one entry per key, so removing every match removes that
one entry). -/
def dictErase {α : Type} (d : List (String × α)) (k : String) :
    List (String × α) :=
  d.filter (fun e => e.1 != k)

/-! ## CallQueue

The priority queue (`CallQueue`), embedded directly with call records as
the queued values, exactly as the Python lists hold call objects. -/

/-- Priority queue state (`CallQueue`): one list per tier plus the dict of
active (dispatched-but-not-completed) calls keyed by call id. -/
structure CallQueue where
  maxConcurrentCalls : Nat := 5
  qCritical : List LLMCall := []
  qHigh : List LLMCall := []
  qNormal : List LLMCall := []
  qLow : List LLMCall := []
  activeCalls : List (String × LLMCall) := []
deriving DecidableEq, Repr

/-- The tier list of a priority. -/
def CallQueue.getQueue (q : CallQueue) : CallPriority → List LLMCall
  | .critical => q.qCritical
  | .high => q.qHigh
  | .normal => q.qNormal
  | .low => q.qLow

/-- Replace the tier list of a priority. -/
def CallQueue.setQueue (q : CallQueue) (p : CallPriority) (l : List LLMCall) :
    CallQueue :=
  match p with
  | .critical => { q with qCritical := l }
  | .high => { q with qHigh := l }
  | .normal => { q with qNormal := l }
  | .low => { q with qLow := l }

/-- `CallQueue.enqueue`: append the call to the list for its priority. -/
def CallQueue.enqueue (q : CallQueue) (call : LLMCall) : CallQueue :=
  q.setQueue call.priority (q.getQueue call.priority ++ [call])

/-- `CallQueue.dequeue`: return `none` when the active-call count has
reached the concurrency cap; otherwise scan the tiers in the order
CRITICAL, HIGH, NORMAL, LOW, pop the head of the first non-empty tier,
mark it PROCESSING, store it in the active dict, and return it. -/
def CallQueue.dequeue (q : CallQueue) : Option LLMCall × CallQueue :=
  if q.activeCalls.length ≥ q.maxConcurrentCalls then
    (none, q)
  else
    match q.qCritical with
    | call :: rest =>
      let call := { call with status := CallStatus.processing }
      let q := { q with qCritical := rest }
      (some call, { q with activeCalls := dictInsert q.activeCalls call.id call })
    | [] =>
      match q.qHigh with
      | call :: rest =>
        let call := { call with status := CallStatus.processing }
        let q := { q with qHigh := rest }
        (some call, { q with activeCalls := dictInsert q.activeCalls call.id call })
      | [] =>
        match q.qNormal with
        | call :: rest =>
          let call := { call with status := CallStatus.processing }
          let q := { q with qNormal := rest }
          (some call, { q with activeCalls := dictInsert q.activeCalls call.id call })
        | [] =>
          match q.qLow with
          | call :: rest =>
            let call := { call with status := CallStatus.processing }
            let q := { q with qLow := rest }
            (some call, { q with activeCalls := dictInsert q.activeCalls call.id call })
          | [] => (none, q)

/-- `CallQueue.complete_call`: remove the id from the active dict when
present; otherwise do nothing. -/
def CallQueue.completeCall (q : CallQueue) (callId : String) : CallQueue :=
  { q with activeCalls := dictErase q.activeCalls callId }

/-! ## Whole-dispatcher model

`Sys` models one `LLMCallHandler` instance together with its `CallQueue`.
Because the same Python `LLMCall` object is referenced from the tier
lists, the active dict, the history dict and any running
`_process_single_call` task, the record store is an append-only list
`history`, and a record is designated everywhere by its index ("token") in
that list. `idIndex` models the `call_history` dict (id → latest object
for that id), `active` models `CallQueue.active_calls` (id → object), and
`inflight` holds the tokens for which a `_process_single_call` task has
been started (at dequeue) and has not yet finished; such a task keeps its
object reference even if the call is cancelled or evicted meanwhile. -/
structure Sys where
  maxConcurrentCalls : Nat := 5
  qCritical : List Nat := []
  qHigh : List Nat := []
  qNormal : List Nat := []
  qLow : List Nat := []
  active : List (String × Nat) := []
  inflight : List Nat := []
  history : List LLMCall := []
  idIndex : List (String × Nat) := []
deriving DecidableEq, Repr

/-- The tier list of a priority. -/
def Sys.getQueue (s : Sys) : CallPriority → List Nat
  | .critical => s.qCritical
  | .high => s.qHigh
  | .normal => s.qNormal
  | .low => s.qLow

/-- Replace the tier list of a priority. -/
def Sys.setQueue (s : Sys) (p : CallPriority) (l : List Nat) : Sys :=
  match p with
  | .critical => { s with qCritical := l }
  | .high => { s with qHigh := l }
  | .normal => { s with qNormal := l }
  | .low => { s with qLow := l }

/-- The fresh `LLMCallHandler()` (with its fresh `CallQueue(5)`). -/
def Sys.init : Sys := {}

/-- Arguments of `LLMCallHandler.submit_call`, with the defaults of the
source; `nowMs` stands for the submission instant (`time.time() * 1000`,
also used for `created_at`). -/
structure SubmitArgs where
  nowMs : Int
  prompt : String
  userId : Int
  model : Option String := none
  temperature : Option Rat := none
  maxTokens : Option Nat := none
  priority : CallPriority := .normal
  timeoutSeconds : Nat := 300
  metadata : Option (List (String × String)) := none

/-- `LLMCallHandler.submit_call`: build the record with a freshly
generated id, enqueue it, store it in the history dict, and return the id.
(The Python `x or default` also replaces falsy explicit values such as
`""` or `0.0` by the default; `Option.getD` models the `None` case, the
one the claims exercise.) -/
def Sys.submit (s : Sys) (a : SubmitArgs) : String × Sys :=
  let callId := callIdOf a.nowMs a.userId
  let call : LLMCall := {
    id := callId
    prompt := a.prompt
    model := a.model.getD settings.openaiModel
    temperature := a.temperature.getD settings.openaiTemperature
    maxTokens := a.maxTokens.getD settings.maxTokens
    priority := a.priority
    userId := a.userId
    createdAt := a.nowMs
    timeoutSeconds := a.timeoutSeconds
    metadata := a.metadata.getD [] }
  let tok := s.history.length
  let s := { s with history := s.history ++ [call] }
  let s := s.setQueue a.priority (s.getQueue a.priority ++ [tok])
  let s := { s with idIndex := dictInsert s.idIndex callId tok }
  (callId, s)

/-- Shared tail of the four dequeue branches: pop the head token of the
tier, mark the record PROCESSING (a write to the shared object, i.e. to
the history entry of the token), store it in the active dict, and record
the started `_process_single_call` task as in flight. -/
def Sys.dequeuePop (s : Sys) (p : CallPriority) (tok : Nat) (rest : List Nat) :
    Option Nat × Sys :=
  match s.history[tok]? with
  | none => (none, s)
  | some c =>
    let c' := { c with status := CallStatus.processing }
    let s := s.setQueue p rest
    let s := { s with history := s.history.set tok c' }
    let s := { s with active := dictInsert s.active c'.id tok }
    let s := { s with inflight := s.inflight ++ [tok] }
    (some tok, s)

/-- `CallQueue.dequeue` at the system level: same control flow as
`CallQueue.dequeue`, acting on tokens; the status write
`call.status = PROCESSING` mutates the shared object, i.e. the history
entry of the popped token. Also records that a processing task for the
token is now in flight. -/
def Sys.dequeueStep (s : Sys) : Option Nat × Sys :=
  if s.active.length ≥ s.maxConcurrentCalls then
    (none, s)
  else
    match s.qCritical with
    | tok :: rest => s.dequeuePop .critical tok rest
    | [] =>
      match s.qHigh with
      | tok :: rest => s.dequeuePop .high tok rest
      | [] =>
        match s.qNormal with
        | tok :: rest => s.dequeuePop .normal tok rest
        | [] =>
          match s.qLow with
          | tok :: rest => s.dequeuePop .low tok rest
          | [] => (none, s)

/-- `CallQueue.complete_call` at the system level. -/
def Sys.completeCall (s : Sys) (callId : String) : Sys :=
  { s with active := dictErase s.active callId }

/-- `LLMCallHandler.cancel_call`: look the id up in the history dict;
return false for an unknown id; when the status is QUEUED or PROCESSING,
set it to CANCELLED, run `complete_call`, and return true; otherwise
return false and change nothing. The call is not removed from its tier
list. -/
def Sys.cancelCall (s : Sys) (callId : String) : Bool × Sys :=
  match dictGet s.idIndex callId with
  | none => (false, s)
  | some tok =>
    match s.history[tok]? with
    | none => (false, s)
    | some c =>
      if c.status = CallStatus.queued ∨ c.status = CallStatus.processing then
        let c' := { c with status := CallStatus.cancelled }
        let s := { s with history := s.history.set tok c' }
        (true, s.completeCall callId)
      else
        (false, s)

/-- Outcome of awaiting the provider invocation inside
`_process_single_call`: the `try` body returns a result (with some
wall-clock elapsed time), or raises `asyncio.TimeoutError`, or raises any
other exception with a message. -/
inductive AttemptOutcome
  | success (result : String) (elapsedMs : Nat)
  | timeoutErr
  | failure (msg : String)
deriving DecidableEq, Repr

/-- The record-field updates of `_process_single_call` for one attempt
outcome, returned together with the requeue decision of the retry logic
(`True` when the call was re-enqueued for another attempt):
* success: status COMPLETED, result, latency, estimated tokens and cost;
* `asyncio.TimeoutError`: status TIMEOUT, error `"Request timed out"`, no
  retry;
* other exception: status FAILED and error recorded, then if
  `retry_count < max_retries` the retry branch increments `retry_count`
  and sets status back to QUEUED (requeue), else the call stays FAILED. -/
def recordAttempt (c : LLMCall) (o : AttemptOutcome) : LLMCall × Bool :=
  match o with
  | .success r elapsedMs =>
    let tokens := estimateTokens c.prompt r
    let c' := { c with status := CallStatus.completed, result := some r }
    let c' := { c' with responseTimeMs := some elapsedMs }
    let c' := { c' with tokensUsed := some tokens }
    ({ c' with cost := some (estimateCost tokens) }, false)
  | .timeoutErr =>
    let c' := { c with status := CallStatus.timeout }
    ({ c' with error := some "Request timed out" }, false)
  | .failure e =>
    if c.retryCount < c.maxRetries then
      let c' := { c with status := CallStatus.queued, error := some e }
      ({ c' with retryCount := c.retryCount + 1 }, true)
    else
      ({ c with status := CallStatus.failed, error := some e }, false)

/-- Completion of the `_process_single_call` task for an in-flight token:
apply the attempt outcome to the shared record, re-enqueue the token at
the tail of its tier when the retry branch fires, and in all cases run the
`finally: complete_call(call.id)` and end the task. A token with no task
in flight has no completion (no-op). -/
def Sys.processAttempt (s : Sys) (tok : Nat) (o : AttemptOutcome) : Sys :=
  if tok ∈ s.inflight then
    match s.history[tok]? with
    | none => s
    | some c =>
      let c' := (recordAttempt c o).1
      let requeue := (recordAttempt c o).2
      let s := { s with inflight := s.inflight.erase tok }
      let s := { s with history := s.history.set tok c' }
      let s := if requeue then
          s.setQueue c.priority (s.getQueue c.priority ++ [tok])
        else s
      s.completeCall c.id
  else
    s

/-- The provider outcome actually possible in this repository:
`_make_api_call` is awaited directly — `_process_single_call` never wraps
it in `asyncio.wait_for`, so the call's `timeout_seconds` is not applied —
and `_make_api_call` always returns a string, whatever wall-clock time
`elapsedMs` the invocation took. -/
def sourceProviderOutcome (rec : LLMCall) (elapsedMs : Nat) : AttemptOutcome :=
  .success (makeApiCall rec) elapsedMs

/-- One step of the dispatcher system: a caller submits, the scheduling
loop dequeues, a caller cancels, or an in-flight processing task finishes
with some provider outcome. -/
inductive Sys.Step : Sys → Sys → Prop
  | submit (s : Sys) (a : SubmitArgs) : Sys.Step s (s.submit a).2
  | dequeue (s : Sys) : Sys.Step s (s.dequeueStep).2
  | cancel (s : Sys) (callId : String) : Sys.Step s (s.cancelCall callId).2
  | attempt (s : Sys) (tok : Nat) (o : AttemptOutcome) :
      Sys.Step s (s.processAttempt tok o)

/-- States reachable from a fresh handler by any interleaving of
operations. -/
inductive Sys.Reachable : Sys → Prop
  | init : Sys.Reachable Sys.init
  | step {s s' : Sys} : Sys.Reachable s → Sys.Step s s' → Sys.Reachable s'

/-! ## BatchCallHandler -/

/-- `BatchCallHandler.wait_for_batch`: one `wait_for_call` task per id,
run concurrently via `asyncio.gather(*tasks, return_exceptions=True)`,
which returns the per-task outcomes in task order with exceptions in
place; the comprehension then converts each exception to `None`. The
function is parametrised by the outcome of each id's `wait_for_call` task
(`Except` models a raised exception). -/
def waitForBatch (waitOutcome : String → Except String (Option String))
    (callIds : List String) : List (Option String) :=
  let results := callIds.map waitOutcome
  results.map (fun r => match r with
    | .ok v => v
    | .error _ => none)

/-! ## Invariant of the dispatcher model -/

/-- Tokens currently held by a tier list or by a running processing task.
Exactly these positions of the object store can still be written by the
scheduling machinery without a new failure outcome. -/
def Sys.pending (s : Sys) : List Nat :=
  s.qCritical ++ s.qHigh ++ s.qNormal ++ s.qLow ++ s.inflight

/-- Per-record part of the dispatcher invariant that the code actually
maintains: `result` is non-null exactly on COMPLETED records, a FAILED or
TIMEOUT record carries an error, and `retry_count` never exceeds
`max_retries`. -/
def recInv (c : LLMCall) : Prop :=
  (c.result ≠ none ↔ c.status = CallStatus.completed) ∧
  ((c.status = CallStatus.failed ∨ c.status = CallStatus.timeout) → c.error ≠ none) ∧
  c.retryCount ≤ c.maxRetries

/-- Dispatcher invariant: every stored record satisfies `recInv`, every
pending token designates a stored record that has no result yet, and no
token is pending twice (an object sits in at most one tier list or
processing task at a time). -/
def Sys.Inv (s : Sys) : Prop :=
  (∀ (i : Nat) (c : LLMCall), s.history[i]? = some c → recInv c) ∧
  (∀ tok ∈ s.pending, ∃ c, s.history[tok]? = some c ∧ c.result = none) ∧
  (∀ tok, s.pending.count tok ≤ 1)

/-- Well-formedness of the priority queue: every call sits in the tier
list of its own priority, as `enqueue` guarantees. -/
def CallQueue.WellFormed (q : CallQueue) : Prop :=
  ∀ p : CallPriority, ∀ c ∈ q.getQueue p, c.priority = p

/-- One failing provider invocation of `_process_single_call`, viewed as a
transformer of the shared record (the outcome branch for a generic
exception with message `e`). Iterating it counts consecutive failed
invocations of the same call. -/
def failIter (e : String) (c : LLMCall) : LLMCall :=
  (recordAttempt c (.failure e)).1

/-! ## Concrete scenario states used by witnesses and counterexamples -/

/-- Submission of a plain NORMAL-priority call by user 1 at instant 0. -/
def argsA : SubmitArgs := { nowMs := 0, prompt := "p", userId := 1 }

/-- The record `argsA` creates. -/
def callA : LLMCall :=
  { id := "call_0_1", prompt := "p", model := "gpt-4", temperature := 7 / 10,
    maxTokens := 2000, priority := .normal, userId := 1, createdAt := 0 }

/-- Fresh handler after submitting `argsA`: one QUEUED call. -/
def sysA1 : Sys := (Sys.init.submit argsA).2

/-- After the scheduling loop dequeues the call: PROCESSING, in flight. -/
def sysA2 : Sys := sysA1.dequeueStep.2

/-- After the first provider invocation fails: the retry branch requeues
the call (status QUEUED again) with the error still recorded. -/
def sysA3 : Sys := sysA2.processAttempt 0 (.failure "boom")

/-- Cancelling the queued call of `sysA1`. -/
def sysB2 : Sys := (sysA1.cancelCall "call_0_1").2

/-- The dequeue following the successful cancellation. -/
def sysB3 : Sys := sysB2.dequeueStep.2

/-- Two submissions, distinct prompts, same user, same millisecond. -/
def argsC1 : SubmitArgs := { nowMs := 1700000000000, prompt := "p1", userId := 1 }

/-- Second of the two colliding submissions. -/
def argsC2 : SubmitArgs := { nowMs := 1700000000000, prompt := "p2", userId := 1 }

/-! ## Helper lemmas -/

/-- Looking up in a list extended on the right still finds old entries. -/
theorem get?_append_of_some {α : Type} {l : List α} {x c : α} {i : Nat}
    (h : l[i]? = some c) : (l ++ [x])[i]? = some c := by
  have hi : i < l.length := by
    rcases List.getElem?_eq_some.mp h with ⟨hlt, _⟩
    exact hlt
  rw [List.getElem?_append_left hi]
  exact h

/-- Case split for lookups in a list extended on the right. -/
theorem get?_snoc_cases {α : Type} {l : List α} {x c : α} {i : Nat}
    (h : (l ++ [x])[i]? = some c) :
    l[i]? = some c ∨ (i = l.length ∧ c = x) := by
  rcases lt_trichotomy i l.length with hlt | heq | hgt
  · left
    rw [List.getElem?_append_left hlt] at h
    exact h
  · right
    subst heq
    rw [List.getElem?_concat_length] at h
    exact ⟨rfl, (Option.some.injEq _ _).mp h.symm⟩
  · exfalso
    have hle : (l ++ [x]).length ≤ i := by
      simp [List.length_append]
      omega
    rw [List.getElem?_len_le hle] at h
    exact Option.noConfusion h

/-- Case split for lookups after a `set`. -/
theorem get?_set_cases {α : Type} {l : List α} {j : Nat} {x : α} {i : Nat} {c : α}
    (h : (l.set j x)[i]? = some c) :
    (i ≠ j ∧ l[i]? = some c) ∨ (i = j ∧ c = x) := by
  by_cases hij : i = j
  · right
    refine ⟨hij, ?_⟩
    subst hij
    rw [List.getElem?_set_self'] at h
    rcases ho : l[i]? with _ | y
    · rw [ho] at h
      simp at h
    · rw [ho] at h
      simp [Function.const] at h
      exact h.symm
  · left
    refine ⟨hij, ?_⟩
    rw [List.getElem?_set_ne (fun hji => hij hji.symm)] at h
    exact h

/-- Lookup after `set` at the written index when the index is in range. -/
theorem get?_set_self {α : Type} {l : List α} {j : Nat} {x c : α}
    (h : l[j]? = some c) : (l.set j x)[j]? = some x := by
  rw [List.getElem?_set_self', h]
  rfl

/-- Every token of a tier list is pending. -/
theorem mem_pending_of_getQueue {s : Sys} {p : CallPriority} {tok : Nat}
    (h : tok ∈ s.getQueue p) : tok ∈ s.pending := by
  cases p <;>
    simp only [Sys.getQueue] at h <;>
    simp [Sys.pending, List.mem_append, h]

/-- Every in-flight token is pending. -/
theorem mem_pending_of_inflight {s : Sys} {tok : Nat}
    (h : tok ∈ s.inflight) : tok ∈ s.pending := by
  simp [Sys.pending, List.mem_append, h]

/-- Pending tokens designate positions of the object store. -/
theorem pending_lt_length {s : Sys} (hInv : s.Inv) {tok : Nat}
    (h : tok ∈ s.pending) : tok < s.history.length := by
  rcases hInv.2.1 tok h with ⟨c, hc, _⟩
  rcases List.getElem?_eq_some.mp hc with ⟨hlt, _⟩
  exact hlt

/-- `submit` preserves the dispatcher invariant. -/
theorem inv_submit (s : Sys) (a : SubmitArgs) (hInv : s.Inv) :
    ((s.submit a).2).Inv := by
  obtain ⟨hA, hB, hC⟩ := hInv
  have hfresh : s.history.length ∉ s.pending := by
    intro hmem
    exact absurd (pending_lt_length ⟨hA, hB, hC⟩ hmem) (lt_irrefl _)
  rcases hp : a.priority with _ | _ | _ | _ <;>
  · simp only [Sys.submit, hp, Sys.setQueue, Sys.getQueue]
    refine ⟨?_, ?_, ?_⟩
    · intro i c hget
      rcases get?_snoc_cases hget with hold | ⟨_, hc⟩
      · exact hA i c hold
      · subst hc
        simp [recInv]
    · intro tok hmem
      by_cases htok : tok = s.history.length
      · subst htok
        exact ⟨_, List.getElem?_concat_length _ _, rfl⟩
      · have hmem' : tok ∈ s.pending := by
          simp only [Sys.pending, List.mem_append, List.mem_singleton] at hmem ⊢
          tauto
        rcases hB tok hmem' with ⟨c, hc, hres⟩
        exact ⟨c, get?_append_of_some hc, hres⟩
    · intro tok
      have hold := hC tok
      simp only [Sys.pending, List.count_append, List.count_singleton] at hold ⊢
      by_cases htok : tok = s.history.length
      · subst htok
        have hzero : List.count s.history.length s.pending = 0 :=
          List.count_eq_zero.mpr hfresh
        simp only [Sys.pending, List.count_append] at hzero
        simp
        omega
      · have hne : (s.history.length == tok) = false := by
          simp
          omega
        simp [hne]
        omega

/-- Popping the head of a tier preserves the dispatcher invariant. -/
theorem inv_dequeuePop (s : Sys) (p : CallPriority) (tok : Nat) (rest : List Nat)
    (hInv : s.Inv) (hq : s.getQueue p = tok :: rest) :
    ((s.dequeuePop p tok rest).2).Inv := by
  obtain ⟨hA, hB, hC⟩ := hInv
  rcases hget : s.history[tok]? with _ | c
  · simpa [Sys.dequeuePop, hget] using ⟨hA, hB, hC⟩
  · have hmem : tok ∈ s.pending :=
      mem_pending_of_getQueue (p := p) (by rw [hq]; exact List.mem_cons_self _ _)
    have hres : c.result = none := by
      rcases hB tok hmem with ⟨c₀, hc₀, hr⟩
      rw [hget] at hc₀
      cases hc₀
      exact hr
    have hrec : recInv c := hA tok c hget
    cases p <;>
    · simp only [Sys.getQueue] at hq
      simp only [Sys.dequeuePop, hget, Sys.setQueue]
      refine ⟨?_, ?_, ?_⟩
      · intro i c₂ hget₂
        rcases get?_set_cases hget₂ with ⟨_, hold⟩ | ⟨_, hc₂⟩
        · exact hA i c₂ hold
        · subst hc₂
          refine ⟨by simp [hres], by simp, hrec.2.2⟩
      · intro tok' hmem'
        by_cases htok : tok' = tok
        · subst htok
          exact ⟨_, get?_set_self hget, by simp [hres]⟩
        · have hmem'' : tok' ∈ s.pending := by
            simp only [Sys.pending, List.mem_append, List.mem_singleton, hq,
              List.mem_cons] at hmem' ⊢
            tauto
          rcases hB tok' hmem'' with ⟨c₀, hc₀, hr⟩
          exact ⟨c₀, by rw [List.getElem?_set_ne (fun h => htok h.symm)]; exact hc₀, hr⟩
      · intro t
        have hold := hC t
        simp only [Sys.pending, List.count_append, hq, List.count_cons,
          List.count_singleton] at hold ⊢
        by_cases ht : tok = t <;> simp [ht] at hold ⊢ <;> omega

/-- The dequeue step preserves the dispatcher invariant. -/
theorem inv_dequeue (s : Sys) (hInv : s.Inv) : (s.dequeueStep.2).Inv := by
  unfold Sys.dequeueStep
  by_cases hcap : s.active.length ≥ s.maxConcurrentCalls
  · simpa [hcap] using hInv
  · simp only [hcap, if_false]
    rcases h1 : s.qCritical with _ | ⟨t1, r1⟩
    · rcases h2 : s.qHigh with _ | ⟨t2, r2⟩
      · rcases h3 : s.qNormal with _ | ⟨t3, r3⟩
        · rcases h4 : s.qLow with _ | ⟨t4, r4⟩
          · simpa using hInv
          · simpa using inv_dequeuePop s .low t4 r4 hInv (by simp [Sys.getQueue, h4])
        · simpa using inv_dequeuePop s .normal t3 r3 hInv (by simp [Sys.getQueue, h3])
      · simpa using inv_dequeuePop s .high t2 r2 hInv (by simp [Sys.getQueue, h2])
    · simpa using inv_dequeuePop s .critical t1 r1 hInv (by simp [Sys.getQueue, h1])

/-- `cancel_call` on an id absent from the history dict: false, no change. -/
theorem cancelCall_unknown {s : Sys} {callId : String}
    (h : dictGet s.idIndex callId = none) :
    s.cancelCall callId = (false, s) := by
  simp [Sys.cancelCall, h]

/-- `cancel_call` on a dangling token: false, no change (unreachable under
the invariant). -/
theorem cancelCall_dangling {s : Sys} {callId : String} {tok : Nat}
    (h : dictGet s.idIndex callId = some tok) (hget : s.history[tok]? = none) :
    s.cancelCall callId = (false, s) := by
  simp [Sys.cancelCall, h, hget]

/-- `cancel_call` on a terminal record: false, no change. -/
theorem cancelCall_terminal {s : Sys} {callId : String} {tok : Nat} {c : LLMCall}
    (h : dictGet s.idIndex callId = some tok) (hget : s.history[tok]? = some c)
    (hst : ¬(c.status = CallStatus.queued ∨ c.status = CallStatus.processing)) :
    s.cancelCall callId = (false, s) := by
  simp [Sys.cancelCall, h, hget, hst]

/-- `cancel_call` on a QUEUED or PROCESSING record: true, the record is
set to CANCELLED and the active entry of the id is released. -/
theorem cancelCall_live {s : Sys} {callId : String} {tok : Nat} {c : LLMCall}
    (h : dictGet s.idIndex callId = some tok) (hget : s.history[tok]? = some c)
    (hst : c.status = CallStatus.queued ∨ c.status = CallStatus.processing) :
    s.cancelCall callId =
      (true, { s with
        history := s.history.set tok { c with status := CallStatus.cancelled },
        active := dictErase s.active callId }) := by
  simp [Sys.cancelCall, h, hget, hst, Sys.completeCall]

/-- `cancel_call` preserves the dispatcher invariant. -/
theorem inv_cancel (s : Sys) (callId : String) (hInv : s.Inv) :
    ((s.cancelCall callId).2).Inv := by
  obtain ⟨hA, hB, hC⟩ := hInv
  rcases hidx : dictGet s.idIndex callId with _ | tok
  · rw [cancelCall_unknown hidx]
    exact ⟨hA, hB, hC⟩
  · rcases hget : s.history[tok]? with _ | c
    · rw [cancelCall_dangling hidx hget]
      exact ⟨hA, hB, hC⟩
    · by_cases hst : c.status = CallStatus.queued ∨ c.status = CallStatus.processing
      · rw [cancelCall_live hidx hget hst]
        have hres : c.result = none := by
          have hiff := (hA tok c hget).1
          by_contra hne
          have hcomp := hiff.mp hne
          rcases hst with h | h <;> rw [h] at hcomp <;> exact CallStatus.noConfusion hcomp
        refine ⟨?_, ?_, ?_⟩
        · intro i c₂ hget₂
          simp only at hget₂
          rcases get?_set_cases hget₂ with ⟨_, hold⟩ | ⟨_, hc₂⟩
          · exact hA i c₂ hold
          · subst hc₂
            exact ⟨by simp [hres], by simp, (hA tok c hget).2.2⟩
        · intro tok' hmem'
          have hpend : tok' ∈ s.pending := by
            simpa [Sys.pending] using hmem'
          by_cases htok : tok' = tok
          · subst htok
            exact ⟨_, get?_set_self hget, by simp [hres]⟩
          · rcases hB tok' hpend with ⟨c₀, hc₀, hr⟩
            refine ⟨c₀, ?_, hr⟩
            simpa [List.getElem?_set_ne (fun h => htok h.symm)] using hc₀
        · intro t
          have hcount := hC t
          simpa [Sys.pending] using hcount
      · rw [cancelCall_terminal hidx hget hst]
        exact ⟨hA, hB, hC⟩

/-- Completing an attempt for a token with no task in flight is a no-op. -/
theorem processAttempt_not_inflight {s : Sys} {tok : Nat} {o : AttemptOutcome}
    (hin : tok ∉ s.inflight) : s.processAttempt tok o = s := by
  simp [Sys.processAttempt, hin]

/-- Completing an attempt for a dangling token is a no-op (unreachable
under the invariant). -/
theorem processAttempt_dangling {s : Sys} {tok : Nat} {o : AttemptOutcome}
    (hin : tok ∈ s.inflight) (hget : s.history[tok]? = none) :
    s.processAttempt tok o = s := by
  simp [Sys.processAttempt, hin, hget]

/-- Attempt completion without requeue (success, timeout, or final
failure): write the updated record, end the task, release the active
entry. -/
theorem processAttempt_noRequeue {s : Sys} {tok : Nat} {o : AttemptOutcome}
    {c : LLMCall} (hin : tok ∈ s.inflight) (hget : s.history[tok]? = some c)
    (hr : (recordAttempt c o).2 = false) :
    s.processAttempt tok o =
      { s with
        inflight := s.inflight.erase tok,
        history := s.history.set tok (recordAttempt c o).1,
        active := dictErase s.active c.id } := by
  simp [Sys.processAttempt, hin, hget, hr, Sys.completeCall]

/-- Attempt completion with requeue (retryable failure): write the updated
record, end the task, append the token to the tail of its tier, release
the active entry. -/
theorem processAttempt_requeue {s : Sys} {tok : Nat} {o : AttemptOutcome}
    {c : LLMCall} (hin : tok ∈ s.inflight) (hget : s.history[tok]? = some c)
    (hr : (recordAttempt c o).2 = true) :
    s.processAttempt tok o =
      { ({ s with
           inflight := s.inflight.erase tok,
           history := s.history.set tok (recordAttempt c o).1 }).setQueue
             c.priority (s.getQueue c.priority ++ [tok]) with
        active := dictErase s.active c.id } := by
  rcases hp : c.priority with _ | _ | _ | _ <;>
    simp [Sys.processAttempt, hin, hget, hr, Sys.completeCall, Sys.setQueue,
      Sys.getQueue, hp]

/-- Attempt completion preserves the dispatcher invariant. -/
theorem inv_attempt (s : Sys) (tok : Nat) (o : AttemptOutcome) (hInv : s.Inv) :
    (s.processAttempt tok o).Inv := by
  obtain ⟨hA, hB, hC⟩ := hInv
  by_cases hin : tok ∈ s.inflight
  case neg =>
    rw [processAttempt_not_inflight hin]
    exact ⟨hA, hB, hC⟩
  rcases hget : s.history[tok]? with _ | c
  · rw [processAttempt_dangling hin hget]
    exact ⟨hA, hB, hC⟩
  have hmem : tok ∈ s.pending := mem_pending_of_inflight hin
  have hres : c.result = none := by
    rcases hB tok hmem with ⟨c₀, hc₀, hr⟩
    rw [hget] at hc₀
    cases hc₀
    exact hr
  have hrec : recInv c := hA tok c hget
  have hsum := hC tok
  simp only [Sys.pending, List.count_append] at hsum
  have hposn : List.count tok s.inflight ≠ 0 := by
    intro h0
    exact (List.count_eq_zero.mp h0) hin
  have hqc : tok ∉ s.qCritical := List.count_eq_zero.mp (by omega)
  have hqh : tok ∉ s.qHigh := List.count_eq_zero.mp (by omega)
  have hqn : tok ∉ s.qNormal := List.count_eq_zero.mp (by omega)
  have hql : tok ∉ s.qLow := List.count_eq_zero.mp (by omega)
  have herase0 : List.count tok (s.inflight.erase tok) = 0 := by
    rw [List.count_erase_self]
    omega
  have hner : tok ∉ s.inflight.erase tok := List.count_eq_zero.mp herase0
  have hAset : ∀ c₂, recInv (recordAttempt c o).1 →
      ∀ (i : Nat), (s.history.set tok (recordAttempt c o).1)[i]? = some c₂ → recInv c₂ := by
    intro c₂ hok i h₂
    rcases get?_set_cases h₂ with ⟨_, hold⟩ | ⟨_, hc₂⟩
    · exact hA i c₂ hold
    · subst hc₂
      exact hok
  rcases o with ⟨r, ems⟩ | _ | e
  · -- success: no requeue
    have hr2 : (recordAttempt c (.success r ems)).2 = false := by
      simp [recordAttempt]
    rw [processAttempt_noRequeue hin hget hr2]
    refine ⟨?_, ?_, ?_⟩
    · intro i c₂ h₂
      refine hAset c₂ ?_ i h₂
      exact ⟨by simp [recordAttempt], by simp [recordAttempt], by
        simp only [recordAttempt]
        exact hrec.2.2⟩
    · intro tok' hmem'
      simp only [Sys.pending, List.mem_append] at hmem'
      have htok : tok' ≠ tok := by
        rintro rfl
        rcases hmem' with (((h | h) | h) | h) | h
        · exact hqc h
        · exact hqh h
        · exact hqn h
        · exact hql h
        · exact hner h
      have hpend : tok' ∈ s.pending := by
        simp only [Sys.pending, List.mem_append]
        rcases hmem' with (((h | h) | h) | h) | h
        · tauto
        · tauto
        · tauto
        · tauto
        · exact Or.inr (List.mem_of_mem_erase h)
      rcases hB tok' hpend with ⟨c₀, hc₀, hr⟩
      refine ⟨c₀, ?_, hr⟩
      simpa [List.getElem?_set_ne (fun h => htok h.symm)] using hc₀
    · intro t
      have hst := hC t
      simp only [Sys.pending, List.count_append] at hst ⊢
      by_cases ht : t = tok
      · subst ht
        rw [List.count_erase_self]
        omega
      · rw [List.count_erase_of_ne ht]
        omega
  · -- timeout: no requeue
    have hr2 : (recordAttempt c .timeoutErr).2 = false := by
      simp [recordAttempt]
    rw [processAttempt_noRequeue hin hget hr2]
    refine ⟨?_, ?_, ?_⟩
    · intro i c₂ h₂
      refine hAset c₂ ?_ i h₂
      exact ⟨by simp [recordAttempt, hres], by simp [recordAttempt], by
        simp only [recordAttempt]
        exact hrec.2.2⟩
    · intro tok' hmem'
      simp only [Sys.pending, List.mem_append] at hmem'
      have htok : tok' ≠ tok := by
        rintro rfl
        rcases hmem' with (((h | h) | h) | h) | h
        · exact hqc h
        · exact hqh h
        · exact hqn h
        · exact hql h
        · exact hner h
      have hpend : tok' ∈ s.pending := by
        simp only [Sys.pending, List.mem_append]
        rcases hmem' with (((h | h) | h) | h) | h
        · tauto
        · tauto
        · tauto
        · tauto
        · exact Or.inr (List.mem_of_mem_erase h)
      rcases hB tok' hpend with ⟨c₀, hc₀, hr⟩
      refine ⟨c₀, ?_, hr⟩
      simpa [List.getElem?_set_ne (fun h => htok h.symm)] using hc₀
    · intro t
      have hst := hC t
      simp only [Sys.pending, List.count_append] at hst ⊢
      by_cases ht : t = tok
      · subst ht
        rw [List.count_erase_self]
        omega
      · rw [List.count_erase_of_ne ht]
        omega
  · -- generic failure
    by_cases hlt : c.retryCount < c.maxRetries
    · -- retry: requeue at the tail of the tier
      have hr2 : (recordAttempt c (.failure e)).2 = true := by
        simp [recordAttempt, hlt]
      rw [processAttempt_requeue hin hget hr2]
      have hok : recInv (recordAttempt c (.failure e)).1 := by
        refine ⟨by simp [recordAttempt, hlt, hres], by simp [recordAttempt, hlt], ?_⟩
        simp only [recordAttempt, hlt, if_true]
        omega
      have hresset : (recordAttempt c (.failure e)).1.result = none := by
        simp [recordAttempt, hlt, hres]
      rcases hp : c.priority with _ | _ | _ | _ <;>
      · simp only [Sys.setQueue, Sys.getQueue]
        refine ⟨?_, ?_, ?_⟩
        · intro i c₂ h₂
          simp only at h₂
          exact hAset c₂ hok i h₂
        · intro tok' hmem'
          simp only [Sys.pending, List.mem_append, List.mem_singleton] at hmem'
          by_cases htok : tok' = tok
          · subst htok
            exact ⟨_, get?_set_self hget, hresset⟩
          · have hpend : tok' ∈ s.pending := by
              simp only [Sys.pending, List.mem_append]
              rcases hmem' with (((h | h) | h) | h) | h
              all_goals first
                | (rcases h with h | h
                   · tauto
                   · exact absurd h htok)
                | tauto
                | exact Or.inr (List.mem_of_mem_erase h)
            rcases hB tok' hpend with ⟨c₀, hc₀, hr⟩
            refine ⟨c₀, ?_, hr⟩
            simpa [List.getElem?_set_ne (fun h => htok h.symm)] using hc₀
        · intro t
          have hst := hC t
          simp only [Sys.pending, List.count_append, List.count_singleton] at hst ⊢
          by_cases ht : t = tok
          · subst ht
            rw [List.count_erase_self]
            simp
            omega
          · have hne : (tok == t) = false := by
              simp
              omega
            rw [List.count_erase_of_ne ht]
            simp [hne]
            omega
    · -- final failure: no requeue
      have hr2 : (recordAttempt c (.failure e)).2 = false := by
        simp [recordAttempt, hlt]
      rw [processAttempt_noRequeue hin hget hr2]
      refine ⟨?_, ?_, ?_⟩
      · intro i c₂ h₂
        refine hAset c₂ ?_ i h₂
        exact ⟨by simp [recordAttempt, hlt, hres], by simp [recordAttempt, hlt], by
          simp only [recordAttempt, hlt, if_false]
          exact hrec.2.2⟩
      · intro tok' hmem'
        simp only [Sys.pending, List.mem_append] at hmem'
        have htok : tok' ≠ tok := by
          rintro rfl
          rcases hmem' with (((h | h) | h) | h) | h
          · exact hqc h
          · exact hqh h
          · exact hqn h
          · exact hql h
          · exact hner h
        have hpend : tok' ∈ s.pending := by
          simp only [Sys.pending, List.mem_append]
          rcases hmem' with (((h | h) | h) | h) | h
          · tauto
          · tauto
          · tauto
          · tauto
          · exact Or.inr (List.mem_of_mem_erase h)
        rcases hB tok' hpend with ⟨c₀, hc₀, hr⟩
        refine ⟨c₀, ?_, hr⟩
        simpa [List.getElem?_set_ne (fun h => htok h.symm)] using hc₀
      · intro t
        have hst := hC t
        simp only [Sys.pending, List.count_append] at hst ⊢
        by_cases ht : t = tok
        · subst ht
          rw [List.count_erase_self]
          omega
        · rw [List.count_erase_of_ne ht]
          omega

/-- The fresh handler satisfies the dispatcher invariant. -/
theorem inv_init : Sys.init.Inv := by
  refine ⟨?_, ?_, ?_⟩ <;> simp [Sys.init, Sys.pending]

/-- Every step of the dispatcher preserves the invariant. -/
theorem inv_step {s s' : Sys} (hInv : s.Inv) (h : Sys.Step s s') : s'.Inv := by
  cases h with
  | submit a => exact inv_submit _ a hInv
  | dequeue => exact inv_dequeue _ hInv
  | cancel callId => exact inv_cancel _ callId hInv
  | attempt tok o => exact inv_attempt _ tok o hInv

/-- Every reachable dispatcher state satisfies the invariant. -/
theorem inv_reachable {s : Sys} (h : Sys.Reachable s) : s.Inv := by
  induction h with
  | init => exact inv_init
  | step _ hstep ih => exact inv_step ih hstep

/-! ## Claim theorems -/

/-- C1 counterexample: the claimed biconditional "error is non-null iff
status ∈ {FAILED, TIMEOUT}" fails on a reachable state. Submit one call,
dequeue it, and let its first provider invocation fail: the retry branch
records the error and requeues the call, so its record has a non-null
error while its status is QUEUED (and hence neither FAILED nor TIMEOUT). -/
theorem c1_counterexample :
    Sys.Reachable sysA3 ∧
    ∃ c : LLMCall, sysA3.history[0]? = some c ∧
      c.error ≠ none ∧
      ¬(c.status = CallStatus.failed ∨ c.status = CallStatus.timeout) ∧
      ¬(c.error ≠ none ↔ (c.status = CallStatus.failed ∨ c.status = CallStatus.timeout)) := by
  constructor
  · exact .step (.step (.step .init (.submit _ argsA)) (.dequeue _))
      (.attempt _ 0 (.failure "boom"))
  · exact ⟨_, rfl, by decide, by decide, by decide⟩

/-- C1 (amended): in every reachable dispatcher state, every record of the
history satisfies: result is non-null iff status = COMPLETED, and if
status ∈ {FAILED, TIMEOUT} then error is non-null. (The converse of the
error direction fails: a failed attempt's error persists through the
requeue and even through a later success, so error may be non-null while
status is QUEUED, PROCESSING, COMPLETED or CANCELLED.) -/
theorem c1_result_error_invariant {s : Sys} (h : Sys.Reachable s) :
    ∀ (i : Nat) (c : LLMCall), s.history[i]? = some c →
      (c.result ≠ none ↔ c.status = CallStatus.completed) ∧
      ((c.status = CallStatus.failed ∨ c.status = CallStatus.timeout) → c.error ≠ none) := by
  intro i c hget
  have hrec := (inv_reachable h).1 i c hget
  exact ⟨hrec.1, hrec.2.1⟩

/-- Witness for the amended C1 at a concrete reachable state. -/
theorem c1_witness :
    ∃ c : LLMCall, sysA1.history[0]? = some c ∧
      (c.result ≠ none ↔ c.status = CallStatus.completed) ∧
      ((c.status = CallStatus.failed ∨ c.status = CallStatus.timeout) → c.error ≠ none) :=
  ⟨callA, rfl,
    c1_result_error_invariant (.step .init (.submit Sys.init argsA)) 0 callA rfl⟩

/-- C2: `cancel_call` does not remove a QUEUED call from its tier list, so
the cancellation is not terminal. Submit one call, cancel it (returns true
and sets CANCELLED), then run the scheduling loop's dequeue: the cancelled
call is popped, its status is overwritten to PROCESSING, and it is
dispatched — contradicting the claim that a call cancelled while QUEUED is
never moved to PROCESSING afterwards. -/
theorem c2_cancelled_redispatched :
    (sysA1.cancelCall "call_0_1").1 = true ∧
    (∃ c : LLMCall, sysB2.history[0]? = some c ∧ c.status = CallStatus.cancelled) ∧
    sysB2.dequeueStep.1 = some 0 ∧
    (∃ c : LLMCall, sysB3.history[0]? = some c ∧ c.status = CallStatus.processing) ∧
    Sys.Reachable sysB3 := by
  refine ⟨by decide, ⟨_, rfl, by decide⟩, by decide, ⟨_, rfl, by decide⟩, ?_⟩
  exact .step (.step (.step .init (.submit _ argsA)) (.cancel _ "call_0_1"))
    (.dequeue _)

/-- C6: call ids are `call_<ms>_<user>`, so two distinct submissions by
the same user in the same millisecond receive the same id — the generated
identifier is not unique across the process lifetime. -/
theorem c6_call_id_collision :
    (Sys.init.submit argsC1).1 = ((Sys.init.submit argsC1).2.submit argsC2).1 ∧
    argsC1.prompt ≠ argsC2.prompt := by
  exact ⟨rfl, by decide⟩

/-- One failing attempt never changes `max_retries`. -/
theorem failIter_maxRetries (e : String) (c : LLMCall) :
    (failIter e c).maxRetries = c.maxRetries := by
  by_cases h : c.retryCount < c.maxRetries <;> simp [failIter, recordAttempt, h]

/-- Iterated failing attempts never change `max_retries`. -/
theorem iterate_failIter_maxRetries (e : String) (c : LLMCall) (k : Nat) :
    ((failIter e)^[k] c).maxRetries = c.maxRetries := by
  induction k with
  | zero => rfl
  | succ k ih =>
    rw [Function.iterate_succ_apply', failIter_maxRetries]
    exact ih

/-- After `k` consecutive failing attempts, `retry_count` is
`min k max_retries`: it climbs by one per failure while strictly below
`max_retries` and then stays put. -/
theorem iterate_failIter_retryCount (e : String) (c : LLMCall) (h0 : c.retryCount = 0)
    (k : Nat) : ((failIter e)^[k] c).retryCount = min k c.maxRetries := by
  induction k with
  | zero => simpa using h0
  | succ k ih =>
    rw [Function.iterate_succ_apply']
    have hmax := iterate_failIter_maxRetries e c k
    simp only [failIter, recordAttempt]
    by_cases h : ((failIter e)^[k] c).retryCount < ((failIter e)^[k] c).maxRetries
    · rw [if_pos h]
      simp only
      rw [ih, hmax] at h
      rw [ih]
      omega
    · rw [if_neg h]
      simp only
      rw [ih, hmax] at h
      rw [ih]
      omega

/-- Status after `k + 1` consecutive failing attempts: QUEUED (requeued
for retry) while `k < max_retries`, FAILED afterwards. -/
theorem iterate_failIter_status (e : String) (c : LLMCall) (h0 : c.retryCount = 0)
    (k : Nat) : ((failIter e)^[k + 1] c).status =
      (if k < c.maxRetries then CallStatus.queued else CallStatus.failed) := by
  rw [Function.iterate_succ_apply']
  have hmax := iterate_failIter_maxRetries e c k
  have hcnt := iterate_failIter_retryCount e c h0 k
  by_cases h : k < c.maxRetries
  · have hlt : ((failIter e)^[k] c).retryCount < ((failIter e)^[k] c).maxRetries := by
      rw [hcnt, hmax]
      omega
    simp [failIter, recordAttempt, hlt, h]
  · have hge : ¬ ((failIter e)^[k] c).retryCount < ((failIter e)^[k] c).maxRetries := by
      rw [hcnt, hmax]
      omega
    simp [failIter, recordAttempt, hge, h]

/-- C3: `retry_count` never exceeds `max_retries` in any reachable
dispatcher state; and for a call with `max_retries = n` whose provider
invocation fails on every attempt, each of the first `n` failures requeues
the call (status QUEUED, `retry_count` incremented to the attempt number),
while the `(n+1)`-th failing invocation leaves it terminally FAILED with
`retry_count = n` and is not requeued. -/
theorem c3_retry_bound :
    (∀ s : Sys, Sys.Reachable s → ∀ (i : Nat) (c : LLMCall), s.history[i]? = some c →
      c.retryCount ≤ c.maxRetries) ∧
    (∀ (n : Nat) (e : String) (c : LLMCall), c.retryCount = 0 → c.maxRetries = n →
      (∀ k : Nat, ((failIter e)^[k] c).retryCount ≤ n) ∧
      (∀ k : Nat, 1 ≤ k → k ≤ n → ((failIter e)^[k] c).status = CallStatus.queued ∧
        ((failIter e)^[k] c).retryCount = k) ∧
      ((failIter e)^[n + 1] c).status = CallStatus.failed ∧
      ((failIter e)^[n + 1] c).retryCount = n ∧
      (recordAttempt ((failIter e)^[n] c) (.failure e)).2 = false) := by
  constructor
  · intro s hs i c hget
    exact ((inv_reachable hs).1 i c hget).2.2
  · intro n e c h0 hn
    refine ⟨?_, ?_, ?_, ?_, ?_⟩
    · intro k
      rw [iterate_failIter_retryCount e c h0 k, hn]
      omega
    · intro k h1 h2
      rcases Nat.exists_eq_add_of_le h1 with ⟨j, hj⟩
      subst hj
      constructor
      · rw [Nat.add_comm 1 j, iterate_failIter_status e c h0 j, hn, if_pos (by omega)]
      · rw [iterate_failIter_retryCount e c h0 (1 + j), hn]
        omega
    · rw [iterate_failIter_status e c h0 n, hn, if_neg (by omega)]
    · rw [iterate_failIter_retryCount e c h0 (n + 1), hn]
      omega
    · have hcnt := iterate_failIter_retryCount e c h0 n
      have hmax := iterate_failIter_maxRetries e c n
      have hge : ¬ ((failIter e)^[n] c).retryCount < ((failIter e)^[n] c).maxRetries := by
        rw [hcnt, hmax, hn]
        omega
      simp [recordAttempt, hge]

/-- Witness for C3: a call with `max_retries = 2`, failing on every
attempt, is FAILED with `retry_count = 2` after its third invocation, and
every record of a concrete reachable state respects the retry bound. -/
theorem c3_witness :
    ((failIter "err")^[3] { callA with maxRetries := 2 }).status = CallStatus.failed ∧
    ((failIter "err")^[3] { callA with maxRetries := 2 }).retryCount = 2 ∧
    (∃ c : LLMCall, sysA1.history[0]? = some c ∧ c.retryCount ≤ c.maxRetries) :=
  ⟨(c3_retry_bound.2 2 "err" { callA with maxRetries := 2 } rfl rfl).2.2.1,
   (c3_retry_bound.2 2 "err" { callA with maxRetries := 2 } rfl rfl).2.2.2.1,
   ⟨callA, rfl,
     c3_retry_bound.1 sysA1 (.step .init (.submit Sys.init argsA)) 0 callA rfl⟩⟩

/-- C7: `_process_single_call` awaits `_make_api_call` without
`asyncio.wait_for`, so the call's own `timeout_seconds` is never applied:
even when the invocation's wall-clock time exceeds the timeout, the
attempt resolves as a success and the call is marked COMPLETED, never
TIMEOUT (and no retry is involved). The `asyncio.TimeoutError` handler is
unreachable with this provider. -/
theorem c7_timeout_not_applied (c : LLMCall) (elapsedMs : Nat)
    (hover : 1000 * c.timeoutSeconds < elapsedMs) :
    (recordAttempt c (sourceProviderOutcome c elapsedMs)).1.status = CallStatus.completed ∧
    (recordAttempt c (sourceProviderOutcome c elapsedMs)).1.status ≠ CallStatus.timeout ∧
    (recordAttempt c (sourceProviderOutcome c elapsedMs)).2 = false := by
  refine ⟨?_, ?_, ?_⟩ <;> simp [recordAttempt, sourceProviderOutcome]

/-- Witness for C7: a call with a 1-second timeout whose invocation takes
5000 ms still completes. -/
theorem c7_witness :
    (recordAttempt { callA with timeoutSeconds := 1 }
      (sourceProviderOutcome { callA with timeoutSeconds := 1 } 5000)).1.status =
        CallStatus.completed ∧
    (recordAttempt { callA with timeoutSeconds := 1 }
      (sourceProviderOutcome { callA with timeoutSeconds := 1 } 5000)).1.status ≠
        CallStatus.timeout ∧
    (recordAttempt { callA with timeoutSeconds := 1 }
      (sourceProviderOutcome { callA with timeoutSeconds := 1 } 5000)).2 = false :=
  c7_timeout_not_applied { callA with timeoutSeconds := 1 } 5000 (by decide)

/-- C8: `cancel_call` returns true exactly when the id designates a known
call whose status is QUEUED or PROCESSING at that moment; in that case the
record becomes CANCELLED and the active entry of the id is released, and a
second cancel of the same id returns false; in every false case the state
is unchanged. -/
theorem c8_cancel_spec (s : Sys) (callId : String) :
    ((s.cancelCall callId).1 = true ↔
      ∃ (tok : Nat) (c : LLMCall), dictGet s.idIndex callId = some tok ∧
        s.history[tok]? = some c ∧
        (c.status = CallStatus.queued ∨ c.status = CallStatus.processing)) ∧
    ((s.cancelCall callId).1 = false → (s.cancelCall callId).2 = s) ∧
    (∀ (tok : Nat) (c : LLMCall), dictGet s.idIndex callId = some tok →
      s.history[tok]? = some c →
      (c.status = CallStatus.queued ∨ c.status = CallStatus.processing) →
      (s.cancelCall callId).2.history[tok]? =
        some { c with status := CallStatus.cancelled } ∧
      (s.cancelCall callId).2.active = dictErase s.active callId) ∧
    ((s.cancelCall callId).1 = true → ((s.cancelCall callId).2.cancelCall callId).1 = false) := by
  rcases hidx : dictGet s.idIndex callId with _ | tok
  · rw [cancelCall_unknown hidx]
    refine ⟨?_, fun _ => rfl, ?_, ?_⟩
    · refine iff_of_false (by simp) ?_
      rintro ⟨tok, c, htok, _, _⟩
      exact Option.noConfusion htok
    · intro tok c htok _ _
      exact Option.noConfusion htok
    · intro h
      exact Bool.noConfusion h
  · rcases hget : s.history[tok]? with _ | c
    · rw [cancelCall_dangling hidx hget]
      refine ⟨?_, fun _ => rfl, ?_, ?_⟩
      · refine iff_of_false (by simp) ?_
        rintro ⟨tok', c, htok, hget', _⟩
        cases htok
        rw [hget] at hget'
        exact Option.noConfusion hget'
      · intro tok' c htok hget' _
        cases htok
        rw [hget] at hget'
        exact Option.noConfusion hget'
      · intro h
        exact Bool.noConfusion h
    · by_cases hst : c.status = CallStatus.queued ∨ c.status = CallStatus.processing
      · rw [cancelCall_live hidx hget hst]
        refine ⟨?_, ?_, ?_, ?_⟩
        · exact iff_of_true rfl ⟨tok, c, rfl, hget, hst⟩
        · intro h
          exact Bool.noConfusion h
        · intro tok' c' htok hget'' _
          cases htok
          rw [hget] at hget''
          cases hget''
          exact ⟨get?_set_self hget, rfl⟩
        · intro _
          have hidx' : dictGet ({ s with
              history := s.history.set tok { c with status := CallStatus.cancelled },
              active := dictErase s.active callId } : Sys).idIndex callId = some tok := hidx
          have hget' : ({ s with
              history := s.history.set tok { c with status := CallStatus.cancelled },
              active := dictErase s.active callId } : Sys).history[tok]? =
              some { c with status := CallStatus.cancelled } := get?_set_self hget
          rw [cancelCall_terminal hidx' hget' (by simp)]
      · rw [cancelCall_terminal hidx hget hst]
        refine ⟨?_, fun _ => rfl, ?_, ?_⟩
        · refine iff_of_false (by simp) ?_
          rintro ⟨tok', c', htok, hget', hst'⟩
          cases htok
          rw [hget] at hget'
          cases hget'
          exact hst hst'
        · intro tok' c' htok hget' hst'
          cases htok
          rw [hget] at hget'
          cases hget'
          exact absurd hst' hst
        · intro h
          exact Bool.noConfusion h

/-- Witness for C8: cancelling the queued call of a concrete state twice —
the first cancel returns true, the second returns false — and cancelling
an unknown id changes nothing. -/
theorem c8_witness :
    ((sysA1.cancelCall "call_0_1").2.cancelCall "call_0_1").1 = false ∧
    (Sys.init.cancelCall "nope").2 = Sys.init :=
  ⟨(c8_cancel_spec sysA1 "call_0_1").2.2.2 (by decide),
   (c8_cancel_spec Sys.init "nope").2.1 (by decide)⟩

/-- `dequeue` at the concurrency cap: nothing is handed out. -/
theorem dequeue_at_cap {q : CallQueue}
    (hcap : q.activeCalls.length ≥ q.maxConcurrentCalls) :
    q.dequeue = (none, q) := by
  simp [CallQueue.dequeue, hcap]

/-- `dequeue` below the cap with all four tiers empty: nothing to do. -/
theorem dequeue_all_empty {q : CallQueue}
    (hcap : ¬ q.activeCalls.length ≥ q.maxConcurrentCalls)
    (h1 : q.qCritical = []) (h2 : q.qHigh = []) (h3 : q.qNormal = [])
    (h4 : q.qLow = []) : q.dequeue = (none, q) := by
  simp [CallQueue.dequeue, hcap, h1, h2, h3, h4]

/-- `dequeue` below the cap with a CRITICAL call pending: pop its head. -/
theorem dequeue_critical {q : CallQueue} {h : LLMCall} {rest : List LLMCall}
    (hcap : ¬ q.activeCalls.length ≥ q.maxConcurrentCalls)
    (h1 : q.qCritical = h :: rest) :
    q.dequeue = (some { h with status := CallStatus.processing },
      { q with
        qCritical := rest,
        activeCalls := dictInsert q.activeCalls h.id
          { h with status := CallStatus.processing } }) := by
  simp [CallQueue.dequeue, hcap, h1]

/-- `dequeue` below the cap, CRITICAL empty, a HIGH call pending. -/
theorem dequeue_high {q : CallQueue} {h : LLMCall} {rest : List LLMCall}
    (hcap : ¬ q.activeCalls.length ≥ q.maxConcurrentCalls)
    (h1 : q.qCritical = []) (h2 : q.qHigh = h :: rest) :
    q.dequeue = (some { h with status := CallStatus.processing },
      { q with
        qHigh := rest,
        activeCalls := dictInsert q.activeCalls h.id
          { h with status := CallStatus.processing } }) := by
  simp [CallQueue.dequeue, hcap, h1, h2]

/-- `dequeue` below the cap, CRITICAL and HIGH empty, a NORMAL call
pending. -/
theorem dequeue_normal {q : CallQueue} {h : LLMCall} {rest : List LLMCall}
    (hcap : ¬ q.activeCalls.length ≥ q.maxConcurrentCalls)
    (h1 : q.qCritical = []) (h2 : q.qHigh = []) (h3 : q.qNormal = h :: rest) :
    q.dequeue = (some { h with status := CallStatus.processing },
      { q with
        qNormal := rest,
        activeCalls := dictInsert q.activeCalls h.id
          { h with status := CallStatus.processing } }) := by
  simp [CallQueue.dequeue, hcap, h1, h2, h3]

/-- `dequeue` below the cap with only LOW calls pending. -/
theorem dequeue_low {q : CallQueue} {h : LLMCall} {rest : List LLMCall}
    (hcap : ¬ q.activeCalls.length ≥ q.maxConcurrentCalls)
    (h1 : q.qCritical = []) (h2 : q.qHigh = []) (h3 : q.qNormal = [])
    (h4 : q.qLow = h :: rest) :
    q.dequeue = (some { h with status := CallStatus.processing },
      { q with
        qLow := rest,
        activeCalls := dictInsert q.activeCalls h.id
          { h with status := CallStatus.processing } }) := by
  simp [CallQueue.dequeue, hcap, h1, h2, h3, h4]

/-- C4: `dequeue` hands out nothing at the concurrency cap; below the cap
it scans CRITICAL, HIGH, NORMAL, LOW and pops the head of the first
non-empty tier, marking it PROCESSING and storing it in the active dict —
so every tier strictly above the dequeued call's tier is empty (a queued
higher-tier call is always served first) and within a tier the head
(oldest) call is served (arrival order). -/
theorem c4_dequeue_spec (q : CallQueue) (hwf : q.WellFormed) :
    (q.activeCalls.length ≥ q.maxConcurrentCalls → q.dequeue = (none, q)) ∧
    (¬ q.activeCalls.length ≥ q.maxConcurrentCalls →
      ((q.qCritical = [] ∧ q.qHigh = [] ∧ q.qNormal = [] ∧ q.qLow = []) →
        q.dequeue = (none, q)) ∧
      (∀ (c : LLMCall) (q' : CallQueue), q.dequeue = (some c, q') →
        c.status = CallStatus.processing ∧
        (∀ p : CallPriority, p.rank < c.priority.rank → q.getQueue p = []) ∧
        (∃ (hd : LLMCall) (rest : List LLMCall),
          q.getQueue c.priority = hd :: rest ∧
          c = { hd with status := CallStatus.processing } ∧
          q' = { q.setQueue c.priority rest with
            activeCalls := dictInsert q.activeCalls c.id c }))) := by
  refine ⟨fun hcap => dequeue_at_cap hcap, fun hcap => ⟨?_, ?_⟩⟩
  · rintro ⟨h1, h2, h3, h4⟩
    exact dequeue_all_empty hcap h1 h2 h3 h4
  · intro c q' hdq
    rcases h1 : q.qCritical with _ | ⟨hd, rest⟩
    case cons =>
      rw [dequeue_critical hcap h1] at hdq
      injection hdq with hdq1 hdq2
      injection hdq1 with hc
      subst hc
      subst hdq2
      have hpri : hd.priority = CallPriority.critical :=
        hwf .critical hd (show hd ∈ q.qCritical by rw [h1]; exact List.mem_cons_self _ _)
      refine ⟨rfl, ?_, hd, rest, ?_, rfl, ?_⟩
      · intro p hp
        rcases p with _ | _ | _ | _ <;>
          simp [CallPriority.rank, hpri] at hp
      · simp [CallQueue.getQueue, hpri, h1]
      · simp [CallQueue.setQueue, hpri]
    rcases h2 : q.qHigh with _ | ⟨hd, rest⟩
    case cons =>
      rw [dequeue_high hcap h1 h2] at hdq
      injection hdq with hdq1 hdq2
      injection hdq1 with hc
      subst hc
      subst hdq2
      have hpri : hd.priority = CallPriority.high :=
        hwf .high hd (show hd ∈ q.qHigh by rw [h2]; exact List.mem_cons_self _ _)
      refine ⟨rfl, ?_, hd, rest, ?_, rfl, ?_⟩
      · intro p hp
        rcases p with _ | _ | _ | _ <;>
          simp [CallPriority.rank, hpri] at hp <;>
          simp [CallQueue.getQueue, h1]
      · simp [CallQueue.getQueue, hpri, h2]
      · simp [CallQueue.setQueue, hpri]
    rcases h3 : q.qNormal with _ | ⟨hd, rest⟩
    case cons =>
      rw [dequeue_normal hcap h1 h2 h3] at hdq
      injection hdq with hdq1 hdq2
      injection hdq1 with hc
      subst hc
      subst hdq2
      have hpri : hd.priority = CallPriority.normal :=
        hwf .normal hd (show hd ∈ q.qNormal by rw [h3]; exact List.mem_cons_self _ _)
      refine ⟨rfl, ?_, hd, rest, ?_, rfl, ?_⟩
      · intro p hp
        rcases p with _ | _ | _ | _ <;>
          simp [CallPriority.rank, hpri] at hp <;>
          simp [CallQueue.getQueue, h1, h2]
      · simp [CallQueue.getQueue, hpri, h3]
      · simp [CallQueue.setQueue, hpri]
    rcases h4 : q.qLow with _ | ⟨hd, rest⟩
    case cons =>
      rw [dequeue_low hcap h1 h2 h3 h4] at hdq
      injection hdq with hdq1 hdq2
      injection hdq1 with hc
      subst hc
      subst hdq2
      have hpri : hd.priority = CallPriority.low :=
        hwf .low hd (show hd ∈ q.qLow by rw [h4]; exact List.mem_cons_self _ _)
      refine ⟨rfl, ?_, hd, rest, ?_, rfl, ?_⟩
      · intro p hp
        rcases p with _ | _ | _ | _ <;>
          simp [CallPriority.rank, hpri] at hp <;>
          simp [CallQueue.getQueue, h1, h2, h3]
      · simp [CallQueue.getQueue, hpri, h4]
      · simp [CallQueue.setQueue, hpri]
    rw [dequeue_all_empty hcap h1 h2 h3 h4] at hdq
    exact Option.noConfusion (congrArg Prod.fst hdq)

/-- Witness for C4 at a concrete queue holding one HIGH and one NORMAL
call: the dequeued call is PROCESSING and every tier above its own is
empty. -/
theorem c4_witness :
    ∃ (c : LLMCall) (q' : CallQueue),
      ({ qHigh := [{ callA with priority := CallPriority.high }],
         qNormal := [callA] } : CallQueue).dequeue = (some c, q') ∧
      c.status = CallStatus.processing ∧
      (∀ p : CallPriority, p.rank < c.priority.rank →
        ({ qHigh := [{ callA with priority := CallPriority.high }],
           qNormal := [callA] } : CallQueue).getQueue p = []) := by
  have hwf : ({ qHigh := [{ callA with priority := CallPriority.high }],
                qNormal := [callA] } : CallQueue).WellFormed := by
    intro p c hc
    rcases p with _ | _ | _ | _ <;> simp [CallQueue.getQueue] at hc <;>
      simp [hc, callA]
  have hspec := (c4_dequeue_spec _ hwf).2 (by decide)
  exact ⟨_, _, rfl, (hspec.2 _ _ rfl).1, (hspec.2 _ _ rfl).2.1⟩

/-- `record_call` repeated over a list of instants appends them to both
logs in order. -/
theorem recordCalls_logs (rl : RateLimiter) (ts : List Int) :
    (rl.recordCalls ts).minuteCalls = rl.minuteCalls ++ ts ∧
    (rl.recordCalls ts).hourCalls = rl.hourCalls ++ ts ∧
    (rl.recordCalls ts).callsPerMinute = rl.callsPerMinute ∧
    (rl.recordCalls ts).callsPerHour = rl.callsPerHour := by
  induction ts generalizing rl with
  | nil => simp [RateLimiter.recordCalls]
  | cons t ts ih =>
    have := ih (rl.recordCall t)
    simpa [RateLimiter.recordCalls, RateLimiter.recordCall, List.append_assoc]
      using this

/-- C5: `can_make_call` prunes both logs to entries strictly inside the
60-second and 3600-second windows and answers true iff both pruned logs
are below their capacities; consequently, a fresh limiter on which exactly
`calls_per_minute` calls are recorded, all within the last minute, answers
false, and answers true again at any instant by which all the recorded
timestamps have left the 60-second window. -/
theorem c5_rate_limit_spec :
    (∀ (rl : RateLimiter) (now : Int),
      (rl.canMakeCall now).1.minuteCalls =
        rl.minuteCalls.filter (fun t => now - 60 < t) ∧
      (rl.canMakeCall now).1.hourCalls =
        rl.hourCalls.filter (fun t => now - 3600 < t) ∧
      ((rl.canMakeCall now).2 = true ↔
        ((rl.minuteCalls.filter (fun t => now - 60 < t)).length < rl.callsPerMinute ∧
         (rl.hourCalls.filter (fun t => now - 3600 < t)).length < rl.callsPerHour))) ∧
    (∀ (cpm cph : Nat) (ts : List Int) (now : Int),
      cpm < cph → ts.length = cpm → (∀ t ∈ ts, now - 60 < t) →
      ((({ callsPerMinute := cpm, callsPerHour := cph } : RateLimiter).recordCalls
        ts).canMakeCall now).2 = false) ∧
    (∀ (cpm cph : Nat) (ts : List Int) (now' : Int),
      0 < cpm → cpm < cph → ts.length = cpm → (∀ t ∈ ts, ¬ (now' - 60 < t)) →
      ((({ callsPerMinute := cpm, callsPerHour := cph } : RateLimiter).recordCalls
        ts).canMakeCall now').2 = true) := by
  refine ⟨?_, ?_, ?_⟩
  · intro rl now
    refine ⟨rfl, rfl, ?_⟩
    simp [RateLimiter.canMakeCall]
  · intro cpm cph ts now hlt hlen hwin
    obtain ⟨hm, hh, hcm, hch⟩ :=
      recordCalls_logs { callsPerMinute := cpm, callsPerHour := cph } ts
    have hfm : ts.filter (fun t => decide (now - 60 < t)) = ts :=
      List.filter_eq_self.mpr (fun t ht => decide_eq_true (hwin t ht))
    simp only [RateLimiter.canMakeCall, hm, hh, hcm, hch, List.nil_append]
    simp [hfm, hlen]
  · intro cpm cph ts now' hpos hlt hlen hout
    obtain ⟨hm, hh, hcm, hch⟩ :=
      recordCalls_logs { callsPerMinute := cpm, callsPerHour := cph } ts
    have hfm : ts.filter (fun t => decide (now' - 60 < t)) = [] :=
      List.filter_eq_nil.mpr (fun t ht => by simpa using hout t ht)
    have hfh : (ts.filter (fun t => decide (now' - 3600 < t))).length ≤ ts.length :=
      List.length_filter_le _ _
    simp only [RateLimiter.canMakeCall, hm, hh, hcm, hch, List.nil_append]
    simp [hfm, hpos]
    omega

/-- Witness for C5: quota 1/minute (2/hour); one call at instant 10 makes
`can_make_call` false at instant 10 and true again at instant 100. -/
theorem c5_witness :
    ((({ callsPerMinute := 1, callsPerHour := 2 } : RateLimiter).recordCalls
      [10]).canMakeCall 10).2 = false ∧
    ((({ callsPerMinute := 1, callsPerHour := 2 } : RateLimiter).recordCalls
      [10]).canMakeCall 100).2 = true :=
  ⟨c5_rate_limit_spec.2.1 1 2 [10] 10 (by decide) rfl (by decide),
   c5_rate_limit_spec.2.2 1 2 [10] 100 (by decide) (by decide) rfl (by decide)⟩

/-- C9: `wait_for_batch` returns a list of the same length as the id list
whose entry at every position `i` is the outcome of the `wait_for_call`
task for the `i`-th id, with a raised exception converted to none at that
position and no effect on any other position. -/
theorem c9_wait_for_batch_spec (waitOutcome : String → Except String (Option String))
    (callIds : List String) :
    (waitForBatch waitOutcome callIds).length = callIds.length ∧
    (∀ i : Nat, (waitForBatch waitOutcome callIds)[i]? =
      (callIds[i]?).map (fun callId =>
        match waitOutcome callId with
        | .ok v => v
        | .error _ => none)) := by
  constructor
  · simp [waitForBatch]
  · intro i
    simp [waitForBatch, List.getElem?_map, Option.map_map]
    rfl

/-- C10: `complete_call` is idempotent — a second completion of the same
id is a no-op on the active dict — and total: completing an id with no
active entry returns the queue unchanged (the `if call_id in
self.active_calls` guard means no exception is raised). -/
theorem c10_complete_call_spec (q : CallQueue) (callId : String) :
    (q.completeCall callId).completeCall callId = q.completeCall callId ∧
    (dictGet q.activeCalls callId = none → q.completeCall callId = q) := by
  constructor
  · simp [CallQueue.completeCall, dictErase, List.filter_filter]
  · intro h
    have hfind : q.activeCalls.find? (fun e => e.1 == callId) = none := by
      simpa [dictGet, Option.map_eq_none] using h
    have hall : ∀ e ∈ q.activeCalls, (e.1 != callId) = true := by
      intro e he
      have hne := List.find?_eq_none.mp hfind e he
      simpa using hne
    simp [CallQueue.completeCall, dictErase, List.filter_eq_self.mpr hall]

/-- Witness for C10: double completion at a one-entry active dict, and
completion of an unknown id at the same dict. -/
theorem c10_witness :
    (({ activeCalls := [("call_0_1", callA)] } : CallQueue).completeCall
        "call_0_1").completeCall "call_0_1" =
      ({ activeCalls := [("call_0_1", callA)] } : CallQueue).completeCall
        "call_0_1" ∧
    ({ activeCalls := [("call_0_1", callA)] } : CallQueue).completeCall "other" =
      ({ activeCalls := [("call_0_1", callA)] } : CallQueue) :=
  ⟨(c10_complete_call_spec _ "call_0_1").1,
   (c10_complete_call_spec _ "other").2 (by decide)⟩

/-- `enqueue` preserves tier well-formedness: it appends the call to the
list of the call's own priority, so the hypothesis of the dequeue
specification holds for every queue built through `enqueue`. -/
theorem wellFormed_enqueue (q : CallQueue) (c : LLMCall) (hwf : q.WellFormed) :
    (q.enqueue c).WellFormed := by
  intro p x hx
  rcases hp : c.priority with _ | _ | _ | _ <;>
    rcases p with _ | _ | _ | _ <;>
    simp [CallQueue.enqueue, CallQueue.setQueue, CallQueue.getQueue, hp] at hx <;>
    first
      | exact hwf _ x hx
      | (rcases hx with hx | hx
         · exact hwf _ x hx
         · subst hx
           exact hp)
